import Mathlib

/-
Shallow embedding of the string-formatting engine in src/formatter.h
(struct StringFormatter and the free functions stringformat / print).

The format string is modelled as a NUL-free list of characters; the C
scanner's pointer is modelled by structural recursion on the remaining
suffix.  Reading the terminating NUL is legal in C and is modelled by the
matches on the empty list; stepping the cursor PAST the terminator (which
the code can do, because strchr("qhlLzjt", *p) also matches the
terminator) is undefined behaviour and is modelled by the distinguished
error value Err.oob.

Stream state mirrors the std::ostream formatting state that the code
touches (basefield, uppercase, showpos, adjustfield, width, precision,
fill, floatfield) together with the accumulated output; the rendering of
formatted integer insertions follows the std::num_put semantics
(value cast to the unsigned type for oct/hex, '+' only for signed types
in decimal, pad to width with the fill character and reset width to 0).
Floating-point VALUES are never rendered by any theorem below; float
elements of containers are carried as integral surrogates.
-/

namespace Fmt

/-- Errors a format call can raise, plus the two modelling markers:
oob marks the scan cursor stepping past the terminating NUL (undefined
behaviour in the C code), noFuel is unreachable for the fuel supplied by
formatRun. -/
inductive Err where
  | notEnough
  | tooMany
  | unknownChar
  | oob
  | noFuel
deriving DecidableEq

/-- The floatfield state (std::fixed / std::scientific / hexfloat /
defaultfloat); set by applytype for f,F,e,E,a,A,g,G but never observed by
any claim (no floating-point value is rendered). -/
inductive FloatField where
  | defaultfloat
  | fixed
  | scientific
  | hexfloat
deriving DecidableEq

/-- The ostream formatting state plus the accumulated output characters. -/
structure OS where
  out : List Char
  base : Nat := 10
  upper : Bool := false
  showpos : Bool := false
  leftadj : Bool := false
  width : Int := 0
  prec : Int := 6
  fill : Char := ' '
  ffield : FloatField := .defaultfloat
deriving DecidableEq

def initOS : OS := { out := [] }

/-- Digit character in the given base position (lowercase or uppercase
hex letters), as produced by the num_put digit tables. -/
def digChar (upper : Bool) (d : Nat) : Char :=
  match d with
  | 0 => '0' | 1 => '1' | 2 => '2' | 3 => '3' | 4 => '4'
  | 5 => '5' | 6 => '6' | 7 => '7' | 8 => '8' | 9 => '9'
  | 10 => if upper then 'A' else 'a'
  | 11 => if upper then 'B' else 'b'
  | 12 => if upper then 'C' else 'c'
  | 13 => if upper then 'D' else 'd'
  | 14 => if upper then 'E' else 'e'
  | 15 => if upper then 'F' else 'f'
  | _ => '?'

/-- Big-endian digit rendering of n in base b; fuel-structural so that the
kernel can evaluate it (70 units of fuel cover every 64-bit value in any
base at least 2). -/
def natToBaseAux (upper : Bool) (b : Nat) : Nat → Nat → List Char
  | 0, _ => []
  | _ + 1, 0 => []
  | fuel + 1, n => natToBaseAux upper b fuel (n / b) ++ [digChar upper (n % b)]

/-- Positional rendering of a nonnegative integer, as num_put produces it
(no leading zeros, a single 0 for zero). -/
def natToBase (upper : Bool) (b : Nat) (n : Nat) : List Char :=
  if n = 0 then ['0'] else natToBaseAux upper b 70 n

/-- Pad a completed field to the stream's width with the fill character,
after the fill (left-adjust pads on the right, otherwise on the left);
models num_put's _M_pad step. -/
def padField (st : OS) (s : List Char) : List Char :=
  if (s.length : Int) < st.width then
    if st.leftadj then s ++ List.replicate (st.width - s.length).toNat st.fill
    else List.replicate (st.width - s.length).toNat st.fill ++ s
  else s

/-- Formatted insertion of a completed field: pad to width, append to the
output, and reset width to 0 (as every formatted ostream inserter does). -/
def emit (st : OS) (s : List Char) : OS :=
  { st with out := st.out ++ padField st s, width := 0 }

/-- Rendering of a signed integral value of the given bit width through
operatorLtLt: decimal shows a sign ('-' for negative, '+' when showpos is
set, as num_put does for signed types only); octal and hex render the
two's-complement bit pattern, i.e. the value modulo 2 to the bits. -/
def renderSigned (st : OS) (bits : Nat) (v : Int) : List Char :=
  if st.base = 8 ∨ st.base = 16 then
    natToBase st.upper st.base ((v % ((2 : Int) ^ bits)).toNat)
  else
    if v < 0 then '-' :: natToBase st.upper 10 (-v).toNat
    else if st.showpos then '+' :: natToBase st.upper 10 v.toNat
    else natToBase st.upper 10 v.toNat

/-- Rendering of an unsigned integral value of the given bit width:
never any sign (num_put adds '+' only for signed types). -/
def renderUnsigned (st : OS) (bits : Nat) (n : Nat) : List Char :=
  if st.base = 8 ∨ st.base = 16 then natToBase st.upper st.base (n % 2 ^ bits)
  else natToBase st.upper 10 (n % 2 ^ bits)

def putSigned (st : OS) (bits : Nat) (v : Int) : OS :=
  emit st (renderSigned st bits v)

def putUnsigned (st : OS) (bits : Nat) (n : Nat) : OS :=
  emit st (renderUnsigned st bits n)

/-- Element type of a container argument: an integral type of some
signedness and bit width, or float, or double. -/
inductive ElemTy where
  | int (signed : Bool) (bits : Nat)
  | flt
  | dbl
deriving DecidableEq

/-- One argument of the variadic format call, tagged with its static type
category as the enable-if dispatch of the source sees it.  vec covers
std::vector and std::array; for flt/dbl elements the stored integers are
surrogates for the float values (no theorem renders a float value). -/
inductive Arg where
  | sint (bits : Nat) (v : Int)
  | uint (bits : Nat) (n : Nat)
  | vec (ty : ElemTy) (elems : List Int)
  | str (s : List Char)
  | ptr (addr : Nat)
deriving DecidableEq

/-- Copy the formatting state of saved onto st, keeping st's output:
models os.copyfmt(state). -/
def copyFmtFrom (st saved : OS) : OS :=
  { saved with out := st.out }

/-- The element loop of the operatorLtLt overloads for std::vector and
std::array: for each element, restore the saved format state, output the
captured fill character as separator (when nonzero and not first), then
insert unsigned(b) (a 32-bit unsigned cast of the element). -/
def vecInsertGo (saved : OS) : OS → List Int → Bool → OS
  | st, [], _ => st
  | st, b :: bs, first =>
    let st1 := copyFmtFrom st saved
    let st2 := if first = false ∧ saved.fill ≠ '\x00' then emit st1 [saved.fill] else st1
    vecInsertGo saved (putUnsigned st2 32 ((b % ((2 : Int) ^ 32)).toNat)) bs false

/-- operatorLtLt(std::ostream, std::vector or std::array): captures the
fill character and the format state, then runs the element loop. -/
def vecInsert (st : OS) (elems : List Int) : OS :=
  vecInsertGo st st elems true

/-- Generic insertion os ltlt value, per argument category.  For scalars
it is the num_put insertion at the argument's own width; for containers
the vector or array overload of this header; strings insert their
characters; a pointer value prints 0x followed by lowercase hex. -/
def genericInsert (st : OS) (v : Arg) : OS :=
  match v with
  | .sint bits n => putSigned st bits n
  | .uint bits n => putUnsigned st bits n
  | .vec _ es => vecInsert st es
  | .str s => emit st s
  | .ptr a => emit st ('0' :: 'x' :: natToBase false 16 a)

/-- add_wchar: for integral arguments the value is interpreted as a code
point and emitted through the native encoding.  Modelled from the spec:
the text-encoding converter (stringconvert.h is not under src/) maps the
single code point to the native representation, modelled as the single
character with that code.  No-op for non-integral arguments. -/
def addWchar (st : OS) (v : Arg) : OS :=
  match v with
  | .sint _ n => emit st [Char.ofNat ((n % ((2 : Int) ^ 32)).toNat)]
  | .uint _ n => emit st [Char.ofNat (n % 2 ^ 32)]
  | _ => st

/-- add_pointer: emits the address for pointer arguments, silent no-op
for every other static type. -/
def addPointer (st : OS) (v : Arg) : OS :=
  match v with
  | .ptr a => emit st ('0' :: 'x' :: natToBase false 16 a)
  | _ => st

/-- Modelled from the spec: the byte-dump renderer of hexdumper.h (not
under src/) renders each byte-sized value as a pair of hex digits,
separated by the fill character when it is nonzero. -/
def hexPairs (fill : Char) : List Nat → List Char
  | [] => []
  | b :: bs =>
    digChar false (b / 16 % 16) :: digChar false (b % 16) ::
      (if bs = [] then [] else (if fill ≠ '\x00' then [fill] else []) ++ hexPairs fill bs)

/-- The container branch of hex_dump_data: a fill of '0' is replaced by
the zero character, the basefield is set to hex, and the dumper output is
appended. -/
def dumpBranch (st : OS) (bytes : List Nat) : OS :=
  let st1 := if st.fill = '0' then { st with fill := '\x00' } else st
  let st2 := { st1 with base := 16 }
  { st2 with out := st2.out ++ hexPairs st2.fill bytes }

/-- hex_dump_data: the overload set selects the silent no-op for
non-containers and for containers whose value_type is exactly double;
every other container (including float element types and strings, since
is_container also matches basic_string) goes to the dumper branch. -/
def hexDumpData (st : OS) (v : Arg) : OS :=
  match v with
  | .vec .dbl _ => st
  | .vec _ es => dumpBranch st (es.map fun b => (b % ((2 : Int) ^ 8)).toNat)
  | .str s => dumpBranch st (s.map fun c => c.toNat % 2 ^ 8)
  | _ => st

/-- output_int: signed arithmetic arguments are widened to long long
(64-bit signed), unsigned ones to unsigned long long, then inserted;
silent no-op for non-arithmetic arguments. -/
def outputInt (st : OS) (v : Arg) : OS :=
  match v with
  | .sint _ n => putSigned st 64 n
  | .uint _ n => putUnsigned st 64 n
  | _ => st

/-- A parsed conversion specifier, exactly the locals of the scanning
loop of StringFormatter's variadic format. -/
structure Spec where
  leftadjust : Bool := false
  forcesign : Bool := false
  padchar : Char := ' '
  width : Int := 0
  havewidth : Bool := false
  precision : Int := 0
  haveprecision : Bool := false
  tchar : Char := '\x00'
deriving DecidableEq

/-- The C whitespace class that strtol skips (space, tab, newline,
vertical tab, form feed, carriage return), by character code. -/
abbrev isWsC (c : Char) : Prop :=
  c.toNat = 32 ∨ c.toNat = 9 ∨ c.toNat = 10 ∨
  c.toNat = 11 ∨ c.toNat = 12 ∨ c.toNat = 13

/-- A decimal digit character, by character code. -/
abbrev isDigitC (c : Char) : Prop := 48 ≤ c.toNat ∧ c.toNat ≤ 57

/-- The characters strchr("qhlLzjt", c) matches, apart from the
terminating NUL of the set. -/
abbrev isSizeChar (c : Char) : Prop :=
  c = 'q' ∨ c = 'h' ∨ c = 'l' ∨ c = 'L' ∨ c = 'z' ∨ c = 'j' ∨ c = 't'

def skipWs : List Char → List Char
  | [] => []
  | c :: t => if isWsC c then skipWs t else c :: t

def readDigits : List Char → Nat → Nat × List Char
  | [], acc => (acc, [])
  | c :: t, acc =>
    if isDigitC c then readDigits t (acc * 10 + (c.toNat - 48)) else (acc, c :: t)

/-- The optional single sign after the skipped whitespace of strtol. -/
def strtolSign : List Char → Bool × List Char
  | [] => (false, [])
  | c :: t =>
    if c = '-' then (true, t)
    else if c = '+' then (false, t)
    else (false, c :: t)

/-- strtol(p, q, 10): skip C whitespace, one optional sign, then decimal
digits; when no digit is consumed the end pointer is reset to p and the
result is 0 (third component: whether any digit was consumed, which is
exactly the p not equal q test of the source). -/
def strtolDec (l : List Char) : Int × List Char × Bool :=
  match strtolSign (skipWs l) with
  | (neg, l2) =>
  match readDigits l2 0 with
  | (v, l3) =>
    if l3.length = l2.length then (0, l, false)
    else ((if neg then -(v : Int) else (v : Int)), l3, true)

/-- The argument-size skip loop: while (strchr("qhlLzjt", p)) advance.
strchr also matches the terminating NUL of its set, so at the end of the
format string the loop steps the cursor past the terminator: modelled as
none (out of bounds). -/
def skipMods : List Char → Option (List Char)
  | [] => none
  | c :: t => if isSizeChar c then skipMods t else some (c :: t)

/-- The lookahead after an I marker: the character one past the advanced
cursor is tested against 6 and 4, and on a match the cursor advances two
more.  With nothing after the I that lookahead reads one past the
terminating NUL: modelled as none. -/
def iSkipAfterI : List Char → Option (List Char)
  | [] => none
  | [c1] => some [c1]
  | c1 :: c2 :: t2 => if c2 = '6' ∨ c2 = '4' then some t2 else some (c1 :: c2 :: t2)

/-- The Microsoft I / I64 handling: on I the cursor advances one and the
lookahead above runs. -/
def iSkip : List Char → Option (List Char)
  | [] => some []
  | c :: t => if c = 'I' then iSkipAfterI t else some (c :: t)

/-- The final type-character read: char type = 0; if (p is not NUL) the
character is taken and the cursor advances. -/
def readType : List Char → Char × List Char
  | [] => ('\x00', [])
  | c :: t => (c, t)

def parseFlagMinus : List Char → Bool × List Char
  | [] => (false, [])
  | c :: t => if c = '-' then (true, t) else (false, c :: t)

def parseFlagSign : List Char → Bool × List Char
  | [] => (false, [])
  | c :: t =>
    if c = '+' then (true, t)
    else if c = ' ' then (false, t)
    else (false, c :: t)

def parsePad : List Char → Char × List Char
  | [] => (' ', [])
  | c :: t =>
    if c = '0' then ('0', t)
    else if c = ',' then (',', t)
    else (' ', c :: t)

def parsePrec : List Char → Int × List Char × Bool
  | [] => (0, [], false)
  | c :: t => if c = '.' then strtolDec t else (0, c :: t, false)

/-- Parse one conversion specifier starting just after the percent sign,
in the source's order: minus flag, sign flag, pad character, width by
strtol, optional dot and precision by strtol, size-character skip,
Microsoft I handling, then the type character. -/
def parseSpec (l : List Char) : Except Err (Spec × List Char) :=
  match parseFlagMinus l with
  | (la, l1) =>
  match parseFlagSign l1 with
  | (fs, l2) =>
  match parsePad l2 with
  | (pc, l3) =>
  match strtolDec l3 with
  | (w, l4, hw) =>
  match parsePrec l4 with
  | (pr, l5, hp) =>
  match skipMods l5 with
  | none => .error .oob
  | some l6 =>
    match iSkip l6 with
    | none => .error .oob
    | some l7 =>
      match readType l7 with
      | (tc, l8) =>
        .ok ({ leftadjust := la, forcesign := fs, padchar := pc,
               width := w, havewidth := hw,
               precision := pr, haveprecision := hp,
               tchar := tc }, l8)

/-- applytype: translate the type character into stream state (basefield,
floatfield, then uppercase iff the character is an uppercase letter);
unknown characters raise the unknown-format-char error before touching
the stream. -/
def applyType (st : OS) (tc : Char) : Except Err OS :=
  let r : Except Err OS :=
    if tc = 'b' then .ok st
    else if tc = 'i' ∨ tc = 'd' ∨ tc = 'u' then .ok { st with base := 10 }
    else if tc = 'o' then .ok { st with base := 8 }
    else if tc = 'x' ∨ tc = 'X' then .ok { st with base := 16 }
    else if tc = 'f' ∨ tc = 'F' then .ok { st with ffield := .fixed }
    else if tc = 'g' ∨ tc = 'G' then .ok { st with ffield := .defaultfloat }
    else if tc = 'a' ∨ tc = 'A' then .ok { st with ffield := .hexfloat }
    else if tc = 'e' ∨ tc = 'E' then .ok { st with ffield := .scientific }
    else if tc = 'c' ∨ tc = 's' ∨ tc = 'p' then .ok st
    else .error .unknownChar
  match r with
  | .error e => .error e
  | .ok st1 => .ok { st1 with upper := decide ('A' ≤ tc ∧ tc ≤ 'Z') }

/-- The stream configuration the variadic format performs for one parsed
specifier: applytype, showpos from the force-sign flag, left adjust on
the minus flag, width (forcing right adjust when no minus flag) or width
zero, precision only when specified, then the fill character. -/
def configure (st : OS) (sp : Spec) : Except Err OS :=
  match applyType st sp.tchar with
  | .error e => .error e
  | .ok st1 =>
    let st2 := { st1 with showpos := sp.forcesign }
    let st3 := if sp.leftadjust then { st2 with leftadj := true } else st2
    let st4 :=
      if sp.havewidth then
        { st3 with width := sp.width,
                   leftadj := if sp.leftadjust then st3.leftadj else false }
      else { st3 with width := 0 }
    let st5 := if sp.haveprecision then { st4 with prec := sp.precision } else st4
    .ok { st5 with fill := sp.padchar }

/-- The emission dispatch on the type character: add_wchar for c,
add_pointer for p, hex_dump_data for b, output_int for i d u o x X, and
the generic insertion otherwise. -/
def dispatch (st : OS) (tc : Char) (v : Arg) : OS :=
  if tc = 'c' then addWchar st v
  else if tc = 'p' then addPointer st v
  else if tc = 'b' then hexDumpData st v
  else if tc = 'i' ∨ tc = 'd' ∨ tc = 'u' ∨ tc = 'o' ∨ tc = 'x' ∨ tc = 'X' then
    outputInt st v
  else genericInsert st v

/-- The no-argument overload of format: copy literal text, a double
percent emits one percent, any other percent raises the
not-enough-arguments error. -/
def format0 (st : OS) : List Char → OS × Option Err
  | [] => (st, none)
  | c :: t =>
    if c = '%' then
      match t with
      | [] => (st, some .notEnough)
      | c2 :: t2 =>
        if c2 = '%' then format0 (emit st ['%']) t2 else (st, some .notEnough)
    else format0 (emit st [c]) t

/-- The variadic format.  With no arguments left it is the no-argument
overload; with the format string exhausted and arguments left it raises
too-many-arguments; otherwise literals and double percents are copied and
a conversion specifier is parsed, configured, dispatched on the first
argument, and the scan continues on the remaining arguments.  Fuel makes
the recursion structural; formatRun supplies enough fuel that noFuel is
unreachable. -/
def formatGo : Nat → OS → List Char → List Arg → OS × Option Err
  | _, st, l, [] => format0 st l
  | _, st, [], _ :: _ => (st, some .tooMany)
  | 0, st, _ :: _, _ :: _ => (st, some .noFuel)
  | fuel + 1, st, c :: t, v :: vs =>
    if c = '%' then
      match t with
      | [] =>
        match parseSpec [] with
        | .error e => (st, some e)
        | .ok (sp, rest) =>
          match configure st sp with
          | .error e => (st, some e)
          | .ok st1 => formatGo fuel (dispatch st1 sp.tchar v) rest vs
      | c2 :: t2 =>
        if c2 = '%' then formatGo fuel (emit st ['%']) t2 (v :: vs)
        else
          match parseSpec (c2 :: t2) with
          | .error e => (st, some e)
          | .ok (sp, rest) =>
            match configure st sp with
            | .error e => (st, some e)
            | .ok st1 => formatGo fuel (dispatch st1 sp.tchar v) rest vs
    else formatGo fuel (emit st [c]) t (v :: vs)

def formatRun (st : OS) (fmt : List Char) (args : List Arg) : OS × Option Err :=
  formatGo (fmt.length + 1) st fmt args

/-- stringformat: format into a fresh string stream; the result is the
accumulated output (everything written before any error) together with
the error the call raised, if any. -/
def stringformat (fmt : List Char) (args : List Arg) : List Char × Option Err :=
  match formatRun initOS fmt args with
  | (st, e) => (st.out, e)

/-- The number of conversion specifiers of a format string in the sense
of the specification: every percent not immediately followed by a second
percent, counted left to right without overlap. -/
def specCount : List Char → Nat
  | [] => 0
  | c :: t =>
    if c = '%' then
      match t with
      | [] => 1
      | c2 :: t2 => if c2 = '%' then specCount t2 else 1 + specCount (c2 :: t2)
    else specCount t

/-- True when the format string nowhere contains an I immediately
followed by a percent and then a 6 or a 4; at such a spot the Microsoft-I
handling of the scanner skips the percent, which breaks the specifier
count. -/
def iSwallowFree : List Char → Bool
  | [] => true
  | [_] => true
  | [_, _] => true
  | c :: c2 :: c3 :: t =>
    if c = 'I' ∧ c2 = '%' ∧ (c3 = '6' ∨ c3 = '4') then false
    else iSwallowFree (c2 :: c3 :: t)

/-- Join the rendered elements with a separator character between
consecutive elements (the shape the specification ascribes to container
rendering). -/
def interleave (c : Char) : List (List Char) → List Char
  | [] => []
  | [x] => x
  | x :: xs => x ++ c :: interleave c xs

/-- Decimal rendering of a signed value with the default stream state
(the text format of percent-d output). -/
def decRender (n : Int) : List Char :=
  if n < 0 then '-' :: natToBase false 10 (-n).toNat else natToBase false 10 n.toNat

/-- Parse a decimal integer back from text: an optional leading minus
sign, then decimal digits (the inverse reading used by the round-trip
property). -/
def parseDecInt (l : List Char) : Int :=
  match l with
  | [] => 0
  | c :: t =>
    if c = '-' then -((readDigits t 0).1 : Int)
    else ((readDigits (c :: t) 0).1 : Int)

/-- True when the list does not start with a decimal digit (the shape of
the text that follows a rendered number). -/
def headNotDigit : List Char → Bool
  | [] => true
  | c :: _ => !(decide (isDigitC c))

lemma digChar_toNat (d : Nat) (h : d < 10) : (digChar false d).toNat = 48 + d := by
  interval_cases d <;> rfl

lemma isDigitC_digChar (d : Nat) (h : d < 10) : isDigitC (digChar false d) := by
  interval_cases d <;> decide

lemma natToBaseAux_succ (u : Bool) (b fuel n : Nat) (h : n ≠ 0) :
    natToBaseAux u b (fuel + 1) n =
      natToBaseAux u b fuel (n / b) ++ [digChar u (n % b)] := by
  rcases n with _ | m
  · exact absurd rfl h
  · rfl

lemma natToBaseAux_zero (u : Bool) (b fuel : Nat) :
    natToBaseAux u b fuel 0 = [] := by
  rcases fuel with _ | f <;> rfl

lemma natToBaseAux_all_digits :
    ∀ (fuel n : Nat), n < 10 ^ fuel →
      ∀ c ∈ natToBaseAux false 10 fuel n, isDigitC c := by
  intro fuel
  induction fuel with
  | zero =>
    intro n hn c hc
    simp [natToBaseAux] at hc
  | succ f ih =>
    intro n hn c hc
    rcases Nat.eq_zero_or_pos n with h0 | hpos
    · rw [h0, natToBaseAux_zero] at hc
      simp at hc
    · rw [natToBaseAux_succ _ _ _ _ (Nat.pos_iff_ne_zero.mp hpos)] at hc
      rcases List.mem_append.mp hc with h | h
      · exact ih (n / 10) (by
          have : n < 10 ^ f * 10 := by
            rw [← pow_succ]
            exact hn
          exact Nat.div_lt_of_lt_mul (by omega)) c h
      · simp at h
        rw [h]
        exact isDigitC_digChar _ (Nat.mod_lt _ (by norm_num))

lemma readDigits_stop (l : List Char) (acc : Nat) (h : headNotDigit l = true) :
    readDigits l acc = (acc, l) := by
  cases l with
  | nil => rfl
  | cons c t =>
    have hnd : c.toNat < 48 ∨ 57 < c.toNat := by
      simpa [headNotDigit] using h
    have hcd : ¬ isDigitC c := by
      intro hd
      rcases hd with ⟨h1, h2⟩
      omega
    simp [readDigits, hcd]

lemma readDigits_render :
    ∀ (fuel n : Nat) (rest : List Char) (acc : Nat), n < 10 ^ fuel →
      readDigits (natToBaseAux false 10 fuel n ++ rest) acc =
        readDigits rest (acc * 10 ^ (natToBaseAux false 10 fuel n).length + n) := by
  intro fuel
  induction fuel with
  | zero =>
    intro n rest acc hn
    have h0 : n = 0 := by simpa using Nat.lt_one_iff.mp hn
    simp [h0, natToBaseAux]
  | succ f ih =>
    intro n rest acc hn
    rcases Nat.eq_zero_or_pos n with h0 | hpos
    · simp [h0, natToBaseAux_zero]
    · have hne : n ≠ 0 := Nat.pos_iff_ne_zero.mp hpos
      rw [natToBaseAux_succ _ _ _ _ hne, List.append_assoc, List.cons_append,
        List.nil_append]
      have hdiv : n / 10 < 10 ^ f := by
        apply Nat.div_lt_of_lt_mul
        rw [Nat.mul_comm, ← pow_succ]
        exact hn
      rw [ih (n / 10) _ acc hdiv]
      have hdig : isDigitC (digChar false (n % 10)) :=
        isDigitC_digChar _ (Nat.mod_lt _ (by norm_num))
      rw [readDigits, if_pos hdig]
      rw [digChar_toNat _ (Nat.mod_lt _ (by norm_num))]
      simp only [List.length_append, List.length_cons, List.length_nil]
      congr 1
      rw [pow_succ, ← Nat.mul_assoc]
      generalize acc * 10 ^ (natToBaseAux false 10 f (n / 10)).length = Q
      omega

lemma natToBase_all_digits (n : Nat) (h : n < 10 ^ 70) :
    ∀ c ∈ natToBase false 10 n, isDigitC c := by
  intro c hc
  unfold natToBase at hc
  by_cases h0 : n = 0
  · rw [if_pos h0] at hc
    simp at hc
    rw [hc]
    decide
  · rw [if_neg h0] at hc
    exact natToBaseAux_all_digits 70 n h c hc

lemma natToBase_ne_nil (u : Bool) (b n : Nat) : natToBase u b n ≠ [] := by
  unfold natToBase
  by_cases h0 : n = 0
  · simp [h0]
  · rw [if_neg h0]
    rw [natToBaseAux_succ _ _ _ _ h0]
    simp

lemma readDigits_natToBase (n : Nat) (rest : List Char) (hn : n < 10 ^ 70)
    (hr : headNotDigit rest = true) :
    readDigits (natToBase false 10 n ++ rest) 0 = (n, rest) := by
  unfold natToBase
  by_cases h0 : n = 0
  · rw [if_pos h0, h0]
    have h48 : '0'.toNat = 48 := rfl
    have hstep : readDigits ('0' :: rest) 0 = readDigits rest 0 := by
      rw [readDigits, if_pos (by decide), h48]
    simp only [List.cons_append, List.nil_append] at hstep ⊢
    rw [hstep, readDigits_stop _ _ hr]
  · rw [if_neg h0, readDigits_render 70 n rest 0 hn, readDigits_stop _ _ hr]
    simp

lemma parseDecInt_decRender (n : Int) (h : -(2 ^ 63) ≤ n ∧ n ≤ 2 ^ 63) :
    parseDecInt (decRender n) = n := by
  unfold decRender
  by_cases hneg : n < 0
  · rw [if_pos hneg]
    rw [parseDecInt, if_pos rfl]
    have hb : (-n).toNat < 10 ^ 70 := by omega
    have := readDigits_natToBase (-n).toNat [] hb rfl
    rw [List.append_nil] at this
    rw [this]
    simp
    omega
  · rw [if_neg hneg]
    have hb : n.toNat < 10 ^ 70 := by omega
    have hrd := readDigits_natToBase n.toNat [] hb rfl
    rw [List.append_nil] at hrd
    obtain ⟨c, t, hct⟩ : ∃ c t, natToBase false 10 n.toNat = c :: t := by
      rcases hl : natToBase false 10 n.toNat with _ | ⟨c, t⟩
      · exact absurd hl (natToBase_ne_nil _ _ _)
      · exact ⟨c, t, rfl⟩
    have hdig : isDigitC c := by
      apply natToBase_all_digits n.toNat hb
      rw [hct]
      simp
    have hcm : c ≠ '-' := by
      intro he
      rw [he] at hdig
      revert hdig
      decide
    rw [hct, parseDecInt, if_neg hcm, ← hct, hrd]
    simp
    omega

lemma padField_nopad (st : OS) (s : List Char) (h : st.width ≤ 0) :
    padField st s = s := by
  unfold padField
  rw [if_neg]
  have : (0 : Int) ≤ (s.length : Int) := Int.natCast_nonneg _
  omega

lemma emit_nopad (st : OS) (s : List Char) (h : st.width ≤ 0) :
    emit st s = { st with out := st.out ++ s, width := 0 } := by
  unfold emit
  rw [padField_nopad st s h]

lemma renderSigned_dec (st : OS) (bits : Nat) (n : Int) (hb : st.base = 10)
    (hs : st.showpos = false) (hu : st.upper = false) :
    renderSigned st bits n = decRender n := by
  unfold renderSigned decRender
  rw [hb, hs, hu]
  simp

lemma formatGo_args_nil (fuel : Nat) (st : OS) (l : List Char) :
    formatGo fuel st l [] = format0 st l := by
  cases fuel <;> cases l <;> rfl

lemma formatGo_fmt_nil (fuel : Nat) (st : OS) (v : Arg) (vs : List Arg) :
    formatGo fuel st [] (v :: vs) = (st, some .tooMany) := by
  cases fuel <;> rfl

lemma formatGo_lit (fuel : Nat) (st : OS) (c : Char) (t : List Char) (v : Arg)
    (vs : List Arg) (h : c ≠ '%') :
    formatGo (fuel + 1) st (c :: t) (v :: vs) = formatGo fuel (emit st [c]) t (v :: vs) := by
  simp [formatGo, h]

lemma formatGo_pct (fuel : Nat) (st : OS) (t : List Char) (v : Arg) (vs : List Arg) :
    formatGo (fuel + 1) st ('%' :: '%' :: t) (v :: vs) =
      formatGo fuel (emit st ['%']) t (v :: vs) := rfl

lemma formatGo_spec (fuel : Nat) (st st1 : OS) (c2 : Char) (t2 rest : List Char)
    (v : Arg) (vs : List Arg) (sp : Spec) (h2 : c2 ≠ '%')
    (hp : parseSpec (c2 :: t2) = .ok (sp, rest))
    (hc : configure st sp = .ok st1) :
    formatGo (fuel + 1) st ('%' :: c2 :: t2) (v :: vs) =
      formatGo fuel (dispatch st1 sp.tchar v) rest vs := by
  simp [formatGo, h2, hp, hc]

lemma formatGo_parse_err (fuel : Nat) (st : OS) (c2 : Char) (t2 : List Char)
    (v : Arg) (vs : List Arg) (e : Err) (h2 : c2 ≠ '%')
    (hp : parseSpec (c2 :: t2) = .error e) :
    formatGo (fuel + 1) st ('%' :: c2 :: t2) (v :: vs) = (st, some e) := by
  simp [formatGo, h2, hp]

lemma formatGo_cfg_err (fuel : Nat) (st : OS) (c2 : Char) (t2 rest : List Char)
    (v : Arg) (vs : List Arg) (sp : Spec) (e : Err) (h2 : c2 ≠ '%')
    (hp : parseSpec (c2 :: t2) = .ok (sp, rest))
    (hc : configure st sp = .error e) :
    formatGo (fuel + 1) st ('%' :: c2 :: t2) (v :: vs) = (st, some e) := by
  simp [formatGo, h2, hp, hc]

lemma formatGo_pct_end (fuel : Nat) (st : OS) (v : Arg) (vs : List Arg) :
    formatGo (fuel + 1) st ['%'] (v :: vs) = (st, some .oob) := rfl

lemma stringformat_d (n : Int) :
    stringformat ['%', 'd'] [.sint 32 n] = (decRender n, none) := by
  show ((emit ⟨[], 10, false, false, false, 0, 6, ' ', .defaultfloat⟩
      (renderSigned ⟨[], 10, false, false, false, 0, 6, ' ', .defaultfloat⟩ 64 n)).out,
      none) = (decRender n, none)
  rw [emit_nopad _ _ (by norm_num)]
  rw [renderSigned_dec _ _ _ rfl rfl rfl]
  simp

lemma digChar_ne_minus (u : Bool) (d : Nat) : digChar u d ≠ '-' := by
  unfold digChar
  cases u <;> split <;> decide

lemma natToBaseAux_mem_digChar (u : Bool) (b : Nat) :
    ∀ (fuel n : Nat) (c : Char), c ∈ natToBaseAux u b fuel n → ∃ d, c = digChar u d := by
  intro fuel
  induction fuel with
  | zero =>
    intro n c hc
    simp [natToBaseAux] at hc
  | succ f ih =>
    intro n c hc
    rcases Nat.eq_zero_or_pos n with h0 | hpos
    · rw [h0, natToBaseAux_zero] at hc
      simp at hc
    · rw [natToBaseAux_succ _ _ _ _ (Nat.pos_iff_ne_zero.mp hpos)] at hc
      rcases List.mem_append.mp hc with h | h
      · exact ih (n / b) c h
      · simp at h
        exact ⟨n % b, h⟩

lemma minus_not_mem_natToBase (u : Bool) (b m : Nat) :
    '-' ∉ natToBase u b m := by
  intro hmem
  unfold natToBase at hmem
  by_cases h0 : m = 0
  · rw [if_pos h0] at hmem
    simp at hmem
  · rw [if_neg h0] at hmem
    obtain ⟨d, hd⟩ := natToBaseAux_mem_digChar u b 70 m '-' hmem
    exact digChar_ne_minus u d hd.symm

lemma stringformat_x (v : Int) :
    stringformat ['%', 'x'] [.sint 64 v]
      = (natToBase false 16 ((v % (2 : Int) ^ 64).toNat), none) := by
  show ((emit ⟨[], 16, false, false, false, 0, 6, ' ', .defaultfloat⟩
      (renderSigned ⟨[], 16, false, false, false, 0, 6, ' ', .defaultfloat⟩ 64 v)).out,
      none) = _
  rw [emit_nopad _ _ (by norm_num)]
  simp [renderSigned]

lemma stringformat_bigx (v : Int) :
    stringformat ['%', 'X'] [.sint 64 v]
      = (natToBase true 16 ((v % (2 : Int) ^ 64).toNat), none) := by
  show ((emit ⟨[], 16, true, false, false, 0, 6, ' ', .defaultfloat⟩
      (renderSigned ⟨[], 16, true, false, false, 0, 6, ' ', .defaultfloat⟩ 64 v)).out,
      none) = _
  rw [emit_nopad _ _ (by norm_num)]
  simp [renderSigned]

lemma stringformat_o (v : Int) :
    stringformat ['%', 'o'] [.sint 64 v]
      = (natToBase false 8 ((v % (2 : Int) ^ 64).toNat), none) := by
  show ((emit ⟨[], 8, false, false, false, 0, 6, ' ', .defaultfloat⟩
      (renderSigned ⟨[], 8, false, false, false, 0, 6, ' ', .defaultfloat⟩ 64 v)).out,
      none) = _
  rw [emit_nopad _ _ (by norm_num)]
  simp [renderSigned]

/-- C7: round-trip: for every 32-bit signed integer n, parsing the
decimal text produced by format("%d", n) back into an integer yields
n. -/
theorem c7_decimal_roundtrip (n : Int) (h1 : -(2 ^ 31) ≤ n) (h2 : n < 2 ^ 31) :
    parseDecInt (stringformat ['%', 'd'] [.sint 32 n]).1 = n := by
  rw [stringformat_d]
  apply parseDecInt_decRender
  norm_num at h1 h2 ⊢
  omega

theorem c7_witness :
    (-(2 ^ 31) ≤ (-12345 : Int) ∧ (-12345 : Int) < 2 ^ 31) ∧
      parseDecInt (stringformat ['%', 'd'] [.sint 32 (-12345)]).1 = -12345 :=
  ⟨⟨by norm_num, by norm_num⟩,
    c7_decimal_roundtrip (-12345) (by norm_num) (by norm_num)⟩

/-- C8: the claim that the scan cursor never steps past the terminating
NUL is wrong: on the format string percent-l with one argument, the
size-character skip loop matches the terminator (strchr semantics) and
walks out of the string, modelled by the oob outcome. -/
theorem c8_modifier_skip_oob :
    formatRun initOS ['%', 'l'] [.sint 32 5] = (initOS, some .oob) := rfl

/-- C9: error precedence: with the argument list exhausted, any percent
not followed by a second percent raises NotEnoughArguments without the
rest of the specifier being examined (the tail is arbitrary); with an
argument available, percent-Q raises UnknownConversionChar instead. -/
theorem c9_error_precedence :
    (∀ (st : OS) (c : Char) (t : List Char), c ≠ '%' →
        format0 st ('%' :: c :: t) = (st, some .notEnough)) ∧
    (∀ st : OS, format0 st ['%'] = (st, some .notEnough)) ∧
    stringformat ['%', 'Q'] [] = ([], some .notEnough) ∧
    stringformat ['%', 'Q'] [.sint 32 1] = ([], some .unknownChar) := by
  refine ⟨?_, ?_, rfl, rfl⟩
  · intro st c t h
    simp [format0, h]
  · intro st
    rfl

theorem c9_witness :
    ('Q' ≠ '%') ∧ format0 initOS ['%', 'Q', 'z'] = (initOS, some .notEnough) :=
  ⟨by decide, c9_error_precedence.1 initOS 'Q' ['z'] (by decide)⟩

/-- C10: a negative signed value formatted with x, X or o is widened to
64-bit and rendered as the unsigned value of its two's-complement bit
pattern, never with a minus sign; in particular percent-x on the int
argument -1 yields sixteen f characters. -/
theorem c10_twos_complement (v : Int) (h1 : -(2 ^ 63) ≤ v) (h2 : v < 0) :
    (stringformat ['%', 'x'] [.sint 64 v]).1 = natToBase false 16 (v + 2 ^ 64).toNat ∧
    (stringformat ['%', 'X'] [.sint 64 v]).1 = natToBase true 16 (v + 2 ^ 64).toNat ∧
    (stringformat ['%', 'o'] [.sint 64 v]).1 = natToBase false 8 (v + 2 ^ 64).toNat ∧
    '-' ∉ (stringformat ['%', 'x'] [.sint 64 v]).1 ∧
    stringformat ['%', 'x'] [.sint 32 (-1)]
      = (['f', 'f', 'f', 'f', 'f', 'f', 'f', 'f', 'f', 'f', 'f', 'f', 'f', 'f', 'f', 'f'],
          none) := by
  have hmod : v % (2 : Int) ^ 64 = v + 2 ^ 64 := by
    have hp : (2 : Int) ^ 64 = 18446744073709551616 := by norm_num
    have hq : (2 : Int) ^ 63 = 9223372036854775808 := by norm_num
    rw [hp]
    rw [hp, hq] at *
    omega
  refine ⟨?_, ?_, ?_, ?_, rfl⟩
  · rw [stringformat_x, hmod]
  · rw [stringformat_bigx, hmod]
  · rw [stringformat_o, hmod]
  · rw [stringformat_x]
    exact minus_not_mem_natToBase false 16 _

theorem c10_witness :
    (-(2 ^ 63) ≤ (-1 : Int) ∧ (-1 : Int) < 0) ∧
      (stringformat ['%', 'x'] [.sint 64 (-1)]).1
        = natToBase false 16 ((-1 : Int) + 2 ^ 64).toNat :=
  ⟨⟨by norm_num, by norm_num⟩,
    (c10_twos_complement (-1) (by norm_num) (by norm_num)).1⟩

/-- C1 counterexample: the claim's iff fails: on percent-Q with exactly
one argument the specifier count equals the argument count, yet the call
does not succeed (it raises UnknownConversionChar). -/
theorem c1_counterexample :
    specCount ['%', 'Q'] = 1 ∧ ([Arg.sint 32 1] : List Arg).length = 1 ∧
      (stringformat ['%', 'Q'] [.sint 32 1]).2 = some .unknownChar ∧
      (stringformat ['%', 'Q'] [.sint 32 1]).2 ≠ none :=
  ⟨rfl, rfl, rfl, by decide⟩

/-- C2 counterexample: the hex base set by percent-x is not reset by a
following percent-s, so the container is rendered in hex (ffff) instead
of the decimal rendering (255) that the same percent-s produces with a
fresh stream. -/
theorem c2_counterexample :
    stringformat ['%', 'x', '%', 's'] [.uint 32 255, .vec (.int false 8) [255]]
        = (['f', 'f', 'f', 'f'], none) ∧
      stringformat ['%', 's'] [.vec (.int false 8) [255]] = (['2', '5', '5'], none) ∧
      (['f', 'f', 'f', 'f'] : List Char) ≠ ['f', 'f'] ++ ['2', '5', '5'] :=
  ⟨rfl, rfl, by decide⟩

/-- C3 counterexample: percent-I32d is not ignored: the I handling skips
nothing (it tests the character one past the cursor), so 3 is read as
the conversion character and the call raises UnknownConversionChar,
unlike percent-d. -/
theorem c3_counterexample :
    stringformat ['%', 'I', '3', '2', 'd'] [.sint 32 5] = ([], some .unknownChar) ∧
      stringformat ['%', 'd'] [.sint 32 5] = (['5'], none) :=
  ⟨rfl, rfl⟩

lemma skipMods_append (mods rest : List Char) (h : ∀ c ∈ mods, isSizeChar c) :
    skipMods (mods ++ rest) = skipMods rest := by
  induction mods with
  | nil => rfl
  | cons c t ih =>
    have hc : isSizeChar c := h c (by simp)
    simp only [List.cons_append, skipMods, if_pos hc]
    exact ih fun x hx => h x (by simp [hx])

lemma stringformat_ld (n : Int) :
    stringformat ['%', 'l', 'd'] [.sint 32 n] = (decRender n, none) := by
  show ((emit ⟨[], 10, false, false, false, 0, 6, ' ', .defaultfloat⟩
      (renderSigned ⟨[], 10, false, false, false, 0, 6, ' ', .defaultfloat⟩ 64 n)).out,
      none) = (decRender n, none)
  rw [emit_nopad _ _ (by norm_num)]
  rw [renderSigned_dec _ _ _ rfl rfl rfl]
  simp

lemma stringformat_i64d (n : Int) :
    stringformat ['%', 'I', '6', '4', 'd'] [.sint 32 n] = (decRender n, none) := by
  show ((emit ⟨[], 10, false, false, false, 0, 6, ' ', .defaultfloat⟩
      (renderSigned ⟨[], 10, false, false, false, 0, 6, ' ', .defaultfloat⟩ 64 n)).out,
      none) = (decRender n, none)
  rw [emit_nopad _ _ (by norm_num)]
  rw [renderSigned_dec _ _ _ rfl rfl rfl]
  simp

/-- C3 amended: all size characters from the set q h l L z j t inserted
at the size-modifier position are skipped without effect, and the
Microsoft I64 marker is ignored (percent-I64d equals percent-d, as does
percent-ld); however percent-I32d is NOT ignored (see the
counterexample). -/
theorem c3_modifiers_ignored :
    (∀ (mods rest : List Char), (∀ c ∈ mods, isSizeChar c) →
        skipMods (mods ++ rest) = skipMods rest) ∧
    (∀ n : Int,
        stringformat ['%', 'l', 'd'] [.sint 32 n] = stringformat ['%', 'd'] [.sint 32 n]) ∧
    (∀ n : Int,
        stringformat ['%', 'I', '6', '4', 'd'] [.sint 32 n]
          = stringformat ['%', 'd'] [.sint 32 n]) := by
  refine ⟨skipMods_append, ?_, ?_⟩
  · intro n
    rw [stringformat_d, stringformat_ld]
  · intro n
    rw [stringformat_d, stringformat_i64d]

theorem c3_witness :
    (∀ c ∈ (['q', 'h', 'l', 'L', 'z', 'j', 't'] : List Char), isSizeChar c) ∧
      skipMods (['q', 'h', 'l', 'L', 'z', 'j', 't'] ++ ['d']) = skipMods ['d'] :=
  ⟨by decide, c3_modifiers_ignored.1 _ _ (by decide)⟩

lemma dumpBranch_out (st : OS) (bytes : List Nat) :
    (dumpBranch st bytes).out
      = st.out ++ hexPairs (if st.fill = '0' then '\x00' else st.fill) bytes := by
  unfold dumpBranch
  split <;> rfl

lemma hexPairs_ne_nil (fill : Char) (b : Nat) (bs : List Nat) :
    hexPairs fill (b :: bs) ≠ [] := by
  simp [hexPairs]

/-- C5 amended: under percent-b, byte dumping is a no-op exactly for
containers whose element type is double; a container with float element
type is passed to the dumper and produces output. -/
theorem c5_amended :
    (∀ es : List Int, stringformat ['%', 'b'] [.vec .dbl es] = ([], none)) ∧
    (∀ (e : Int) (es : List Int),
        (stringformat ['%', 'b'] [.vec .flt (e :: es)]).1 ≠ []) := by
  constructor
  · intro es
    rfl
  · intro e es
    show (dumpBranch ⟨[], 10, false, false, false, 0, 6, ' ', .defaultfloat⟩
        ((e :: es).map fun b => (b % ((2 : Int) ^ 8)).toNat)).out ≠ []
    rw [dumpBranch_out]
    rw [if_neg (by decide :
      ¬(OS.fill ⟨[], 10, false, false, false, 0, 6, ' ', .defaultfloat⟩ = '0'))]
    simp only [List.map_cons, List.nil_append]
    exact hexPairs_ne_nil _ _ _

theorem c5_witness :
    stringformat ['%', 'b'] [.vec .dbl [0, 1]] = ([], none) ∧
      (stringformat ['%', 'b'] [.vec .flt [0]]).1 ≠ [] :=
  ⟨c5_amended.1 [0, 1], c5_amended.2 0 []⟩

/-- C5 counterexample: a vector with float (not double) element type is
not a no-op under percent-b: the dumper branch is selected and output is
produced. -/
theorem c5_counterexample :
    (stringformat ['%', 'b'] [.vec .flt [0]]).1 = ['0', '0'] ∧
      (['0', '0'] : List Char) ≠ [] :=
  ⟨rfl, by decide⟩

lemma putUnsigned_dec (st : OS) (bits : Nat) (X : Nat) (hb : st.base = 10)
    (hu : st.upper = false) (hw : st.width ≤ 0) :
    putUnsigned st bits X
      = { st with out := st.out ++ natToBase false 10 (X % 2 ^ bits), width := 0 } := by
  unfold putUnsigned renderUnsigned
  rw [hb, hu, emit_nopad _ _ hw]
  simp
  exact ⟨hb, hu⟩

lemma vecInsertGo_out :
    ∀ (es : List Int) (st : OS) (first : Bool),
      (vecInsertGo ⟨[], 10, false, false, false, 0, 6, ' ', .defaultfloat⟩ st es first).out
        = st.out ++
            (if first = false ∧ es ≠ [] then [' '] else []) ++
            interleave ' '
              (es.map fun b => natToBase false 10 ((b % (2 : Int) ^ 32).toNat)) := by
  intro es
  induction es with
  | nil =>
    intro st first
    simp [vecInsertGo, interleave]
  | cons b bs ih =>
    intro st first
    have hlt : (b % (2 : Int) ^ 32).toNat < 2 ^ 32 := by
      have h1 : b % (2 : Int) ^ 32 < (2 : Int) ^ 32 := Int.emod_lt_of_pos b (by positivity)
      have h2 : (0 : Int) ≤ b % (2 : Int) ^ 32 := Int.emod_nonneg b (by positivity)
      have e1 : ((2 : Int) ^ 32) = 4294967296 := by norm_num
      have e2 : (2 ^ 32 : Nat) = 4294967296 := by norm_num
      rw [e1] at h1 h2
      rw [e2]
      omega
    have hmodid : (b % (2 : Int) ^ 32).toNat % 2 ^ 32 = (b % (2 : Int) ^ 32).toNat :=
      Nat.mod_eq_of_lt hlt
    cases first with
    | true =>
      simp only [vecInsertGo]
      rw [if_neg (by simp)]
      rw [putUnsigned_dec _ _ _ rfl rfl (le_refl 0)]
      rw [ih]
      simp only [copyFmtFrom, hmodid, List.map_cons]
      cases bs with
      | nil => simp [interleave]
      | cons b2 bs2 => simp [interleave]
    | false =>
      simp only [vecInsertGo]
      rw [if_pos (by decide)]
      rw [emit_nopad _ _ (le_refl 0)]
      rw [putUnsigned_dec _ _ _ rfl rfl (le_refl 0)]
      rw [ih]
      simp only [copyFmtFrom, hmodid, List.map_cons]
      cases bs with
      | nil => simp [interleave]
      | cons b2 bs2 => simp [interleave]

/-- C6 amended: a container under the generic strategy is rendered
element by element, separated by the current fill character, but each
element is first converted to a 32-bit unsigned value (the source's
unsigned(b) cast) and then inserted with the stream's current formatting
state; elements are not rendered as-is. -/
theorem c6_amended (es : List Int) :
    stringformat ['%', 's'] [.vec (.int true 32) es]
      = (interleave ' '
            (es.map fun b => natToBase false 10 ((b % (2 : Int) ^ 32).toNat)),
          none) := by
  have h0 : stringformat ['%', 's'] [.vec (.int true 32) es]
      = ((vecInsertGo ⟨[], 10, false, false, false, 0, 6, ' ', .defaultfloat⟩
            ⟨[], 10, false, false, false, 0, 6, ' ', .defaultfloat⟩ es true).out,
          none) := rfl
  rw [h0, vecInsertGo_out]
  simp

lemma applyType_base_pres (st st0 : OS) (tc : Char) (h : applyType st tc = .ok st0)
    (htc : tc = 'b' ∨ tc = 'c' ∨ tc = 's' ∨ tc = 'p') : st0.base = st.base := by
  rcases htc with rfl | rfl | rfl | rfl <;>
    · unfold applyType at h
      simp at h
      rw [← h]

lemma applyType_base_x (st st0 : OS) (h : applyType st 'x' = .ok st0) : st0.base = 16 := by
  unfold applyType at h
  simp at h
  rw [← h]

lemma applyType_base_d (st st0 : OS) (h : applyType st 'd' = .ok st0) : st0.base = 10 := by
  unfold applyType at h
  simp at h
  rw [← h]

/-- C2 amended: before each emission the specifier does re-specify fill
(its pad character), sign display (its force-sign flag), width (its
width, or zero) and, whenever a width is given, alignment (left exactly
when the minus flag is present); but the numeric base is NOT reset by
specifiers of type b, c, s or p, so a base set by an earlier specifier
(for example hex from percent-x) persists into a later percent-s. -/
theorem c2_state_reset :
    ∀ (st st1 : OS) (sp : Spec), configure st sp = .ok st1 →
      st1.fill = sp.padchar ∧
      st1.showpos = sp.forcesign ∧
      st1.width = (if sp.havewidth then sp.width else 0) ∧
      (sp.leftadjust = true → st1.leftadj = true) ∧
      (sp.leftadjust = false → sp.havewidth = true → st1.leftadj = false) ∧
      ((sp.tchar = 'b' ∨ sp.tchar = 'c' ∨ sp.tchar = 's' ∨ sp.tchar = 'p') →
        st1.base = st.base) ∧
      (sp.tchar = 'x' → st1.base = 16) ∧
      (sp.tchar = 'd' → st1.base = 10) := by
  intro st st1 sp h
  unfold configure at h
  rcases happ : applyType st sp.tchar with e | st0
  · rw [happ] at h
    simp at h
  · rw [happ] at h
    simp only [Except.ok.injEq] at h
    subst h
    refine ⟨?_, ?_, ?_, ?_, ?_, ?_, ?_, ?_⟩
    · cases hLA : sp.leftadjust <;> cases hHW : sp.havewidth <;>
        cases hHP : sp.haveprecision <;> simp [hLA, hHW, hHP]
    · cases hLA : sp.leftadjust <;> cases hHW : sp.havewidth <;>
        cases hHP : sp.haveprecision <;> simp [hLA, hHW, hHP]
    · cases hLA : sp.leftadjust <;> cases hHW : sp.havewidth <;>
        cases hHP : sp.haveprecision <;> simp [hLA, hHW, hHP]
    · intro hla
      cases hHW : sp.havewidth <;> cases hHP : sp.haveprecision <;> simp [hla, hHW, hHP]
    · intro hla hhw
      cases hHP : sp.haveprecision <;> simp [hla, hhw, hHP]
    · intro htc
      have hb := applyType_base_pres st st0 sp.tchar happ htc
      cases hLA : sp.leftadjust <;> cases hHW : sp.havewidth <;>
        cases hHP : sp.haveprecision <;> simp [hLA, hHW, hHP, hb]
    · intro htc
      rw [htc] at happ
      have hb := applyType_base_x st st0 happ
      cases hLA : sp.leftadjust <;> cases hHW : sp.havewidth <;>
        cases hHP : sp.haveprecision <;> simp [hLA, hHW, hHP, hb]
    · intro htc
      rw [htc] at happ
      have hb := applyType_base_d st st0 happ
      cases hLA : sp.leftadjust <;> cases hHW : sp.havewidth <;>
        cases hHP : sp.haveprecision <;> simp [hLA, hHW, hHP, hb]

theorem c2_witness :
    configure { initOS with base := 16 } ⟨false, false, ' ', 0, false, 0, false, 's'⟩
        = .ok ⟨[], 16, false, false, false, 0, 6, ' ', .defaultfloat⟩ ∧
      (OS.fill ⟨[], 16, false, false, false, 0, 6, ' ', .defaultfloat⟩ = ' ') ∧
      (OS.base ⟨[], 16, false, false, false, 0, 6, ' ', .defaultfloat⟩
        = OS.base { initOS with base := 16 }) :=
  ⟨rfl,
    (c2_state_reset { initOS with base := 16 }
      ⟨[], 16, false, false, false, 0, 6, ' ', .defaultfloat⟩
      ⟨false, false, ' ', 0, false, 0, false, 's'⟩ rfl).1,
    (c2_state_reset { initOS with base := 16 }
      ⟨[], 16, false, false, false, 0, 6, ' ', .defaultfloat⟩
      ⟨false, false, ' ', 0, false, 0, false, 's'⟩ rfl).2.2.2.2.2.1 (by decide)⟩

theorem c6_witness :
    stringformat ['%', 's'] [.vec (.int true 32) [1, 2]]
      = (interleave ' '
          (([1, 2] : List Int).map fun b => natToBase false 10 ((b % (2 : Int) ^ 32).toNat)),
        none) :=
  c6_amended [1, 2]

/-- C6 counterexample: container elements are not rendered as-is: the
element -1 of a vector of signed 32-bit integers is cast to unsigned and
prints 4294967295, not the as-is decimal rendering -1. -/
theorem c6_counterexample :
    stringformat ['%', 's'] [.vec (.int true 32) [-1]]
        = (['4', '2', '9', '4', '9', '6', '7', '2', '9', '5'], none) ∧
      decRender (-1) = ['-', '1'] ∧
      (['4', '2', '9', '4', '9', '6', '7', '2', '9', '5'] : List Char) ≠ ['-', '1'] :=
  ⟨rfl, rfl, by decide⟩

lemma natToBaseAux_head_ne_zero :
    ∀ (fuel n : Nat), 0 < n → n < 10 ^ fuel →
      ∃ c t, natToBaseAux false 10 fuel n = c :: t ∧ isDigitC c ∧ c ≠ '0' := by
  intro fuel
  induction fuel with
  | zero =>
    intro n h0 hb
    omega
  | succ f ih =>
    intro n h0 hb
    rw [natToBaseAux_succ _ _ _ _ (by omega)]
    rcases Nat.eq_zero_or_pos (n / 10) with hq | hq
    · rw [hq, natToBaseAux_zero]
      have hn10 : n < 10 := by
        rcases Nat.lt_or_ge n 10 with h | h
        · exact h
        · exact absurd hq (by
            have := Nat.div_le_div_right (c := 10) h
            simp at this
            omega)
      have hmod : n % 10 = n := Nat.mod_eq_of_lt hn10
      refine ⟨digChar false (n % 10), [], rfl, isDigitC_digChar _ (by omega), ?_⟩
      intro he
      have := digChar_toNat (n % 10) (by omega)
      rw [he] at this
      simp at this
      omega
    · obtain ⟨c, t, hct, hd, hz⟩ := ih (n / 10) hq (by
        apply Nat.div_lt_of_lt_mul
        rw [Nat.mul_comm, ← pow_succ]
        exact hb)
      exact ⟨c, t ++ [digChar false (n % 10)], by rw [hct]; rfl, hd, hz⟩

lemma natToBase_head (w : Nat) (h0 : 0 < w) (hb : w < 10 ^ 70) :
    ∃ c t, natToBase false 10 w = c :: t ∧ isDigitC c ∧ c ≠ '0' := by
  unfold natToBase
  rw [if_neg (by omega)]
  exact natToBaseAux_head_ne_zero 70 w h0 hb

lemma skipWs_no (c : Char) (t : List Char) (h : ¬ isWsC c) :
    skipWs (c :: t) = c :: t := by
  simp [skipWs, h]

lemma strtolSign_no (c : Char) (t : List Char) (h1 : c ≠ '-') (h2 : c ≠ '+') :
    strtolSign (c :: t) = (false, c :: t) := by
  simp [strtolSign, h1, h2]

lemma isDigitC_not_ws (c : Char) (h : isDigitC c) : ¬ isWsC c := by
  rcases h with ⟨h1, h2⟩
  intro hw
  rcases hw with h | h | h | h | h | h <;> omega

lemma isDigitC_ne_of_code (c : Char) (h : isDigitC c) (m : Nat) (hm : m < 48 ∨ 57 < m)
    (d : Char) (hd : d.toNat = m) : c ≠ d := by
  rcases h with ⟨h1, h2⟩
  intro he
  rw [he, hd] at h1 h2
  omega

lemma strtolDec_natToBase (w : Nat) (rest : List Char) (hw : w < 10 ^ 70)
    (hr : headNotDigit rest = true) :
    strtolDec (natToBase false 10 w ++ rest) = ((w : Int), rest, true) := by
  obtain ⟨c, t, hct⟩ : ∃ c t, natToBase false 10 w = c :: t := by
    rcases hl : natToBase false 10 w with _ | ⟨c, t⟩
    · exact absurd hl (natToBase_ne_nil _ _ _)
    · exact ⟨c, t, rfl⟩
  have hdig : isDigitC c := by
    apply natToBase_all_digits w hw
    rw [hct]
    simp
  have hrd := readDigits_natToBase w rest hw hr
  unfold strtolDec
  rw [hct, List.cons_append, skipWs_no _ _ (isDigitC_not_ws c hdig),
    strtolSign_no _ _ (isDigitC_ne_of_code c hdig 45 (by omega) '-' rfl)
      (isDigitC_ne_of_code c hdig 43 (by omega) '+' rfl)]
  dsimp only
  rw [← List.cons_append, ← hct, hrd]
  dsimp only
  rw [if_neg (by
    rw [hct]
    simp
    omega)]
  simp

lemma parseFlagMinus_no (c : Char) (t : List Char) (h : c ≠ '-') :
    parseFlagMinus (c :: t) = (false, c :: t) := by
  simp [parseFlagMinus, h]

lemma parseFlagSign_no (c : Char) (t : List Char) (h1 : c ≠ '+') (h2 : c ≠ ' ') :
    parseFlagSign (c :: t) = (false, c :: t) := by
  simp [parseFlagSign, h1, h2]

lemma parsePad_no (c : Char) (t : List Char) (h1 : c ≠ '0') (h2 : c ≠ ',') :
    parsePad (c :: t) = (' ', c :: t) := by
  simp [parsePad, h1, h2]

lemma parseSpec_width_d (w : Nat) (h0 : 0 < w) (hb : w < 2 ^ 31) :
    parseSpec (natToBase false 10 w ++ ['d'])
      = .ok (⟨false, false, ' ', (w : Int), true, 0, false, 'd'⟩, []) := by
  have hw70 : w < 10 ^ 70 := by
    calc w < 2 ^ 31 := hb
    _ ≤ 10 ^ 70 := by norm_num
  obtain ⟨c, t, hct, hdig, hne0⟩ := natToBase_head w h0 hw70
  have hstr := strtolDec_natToBase w ['d'] hw70 (by decide)
  unfold parseSpec
  rw [hct, List.cons_append,
    parseFlagMinus_no _ _ (isDigitC_ne_of_code c hdig 45 (by omega) '-' rfl)]
  dsimp only
  rw [parseFlagSign_no _ _ (isDigitC_ne_of_code c hdig 43 (by omega) '+' rfl)
      (isDigitC_ne_of_code c hdig 32 (by omega) ' ' rfl)]
  dsimp only
  rw [parsePad_no _ _ hne0 (isDigitC_ne_of_code c hdig 44 (by omega) ',' rfl)]
  dsimp only
  rw [← List.cons_append, ← hct, hstr]
  rfl

lemma parseSpec_width_minus_d (w : Nat) (h0 : 0 < w) (hb : w < 2 ^ 31) :
    parseSpec ('-' :: (natToBase false 10 w ++ ['d']))
      = .ok (⟨true, false, ' ', (w : Int), true, 0, false, 'd'⟩, []) := by
  have hw70 : w < 10 ^ 70 := by
    calc w < 2 ^ 31 := hb
    _ ≤ 10 ^ 70 := by norm_num
  obtain ⟨c, t, hct, hdig, hne0⟩ := natToBase_head w h0 hw70
  have hstr := strtolDec_natToBase w ['d'] hw70 (by decide)
  unfold parseSpec
  have hm : parseFlagMinus ('-' :: (natToBase false 10 w ++ ['d']))
      = (true, natToBase false 10 w ++ ['d']) := by
    simp [parseFlagMinus]
  rw [hm, hct, List.cons_append]
  dsimp only
  rw [parseFlagSign_no _ _ (isDigitC_ne_of_code c hdig 43 (by omega) '+' rfl)
      (isDigitC_ne_of_code c hdig 32 (by omega) ' ' rfl)]
  dsimp only
  rw [parsePad_no _ _ hne0 (isDigitC_ne_of_code c hdig 44 (by omega) ',' rfl)]
  dsimp only
  rw [← List.cons_append, ← hct, hstr]
  rfl

lemma padField_right (st : OS) (s : List Char) (w' : Nat) (hw : st.width = (w' : Int))
    (hl : st.leftadj = false) :
    padField st s = List.replicate (w' - s.length) st.fill ++ s := by
  unfold padField
  rw [hw, hl]
  by_cases h : (s.length : Int) < (w' : Int)
  · rw [if_pos h]
    simp only [Bool.false_eq_true, if_false]
    congr 2
    omega
  · rw [if_neg h]
    have hz : w' - s.length = 0 := by omega
    rw [hz]
    simp

lemma padField_left (st : OS) (s : List Char) (w' : Nat) (hw : st.width = (w' : Int))
    (hl : st.leftadj = true) :
    padField st s = s ++ List.replicate (w' - s.length) st.fill := by
  unfold padField
  rw [hw, hl]
  by_cases h : (s.length : Int) < (w' : Int)
  · rw [if_pos h]
    simp only [if_true]
    congr 2
    omega
  · rw [if_neg h]
    have hz : w' - s.length = 0 := by omega
    rw [hz]
    simp



lemma stringformat_width_d (w : Nat) (n : Int) (h0 : 0 < w) (hb : w < 2 ^ 31) :
    stringformat ('%' :: (natToBase false 10 w ++ ['d'])) [.sint 32 n]
      = (List.replicate (w - (decRender n).length) ' ' ++ decRender n, none) := by
  obtain ⟨c, t, hct, hdig, hne0⟩ := natToBase_head w h0 (by
    calc w < 2 ^ 31 := hb
    _ ≤ 10 ^ 70 := by norm_num)
  have hcm : c ≠ '%' := isDigitC_ne_of_code c hdig 37 (by omega) '%' rfl
  have hps : parseSpec (c :: (t ++ ['d']))
      = .ok (⟨false, false, ' ', (w : Int), true, 0, false, 'd'⟩, []) := by
    rw [← List.cons_append, ← hct]
    exact parseSpec_width_d w h0 hb
  have hcfg : configure initOS ⟨false, false, ' ', (w : Int), true, 0, false, 'd'⟩
      = .ok ⟨[], 10, false, false, false, (w : Int), 6, ' ', .defaultfloat⟩ := rfl
  unfold stringformat formatRun
  rw [hct, List.cons_append]
  simp only [List.length_cons]
  rw [formatGo_spec _ _ _ _ _ _ _ _ _ hcm hps hcfg]
  rw [formatGo_args_nil]
  show ((emit ⟨[], 10, false, false, false, (w : Int), 6, ' ', .defaultfloat⟩
      (renderSigned ⟨[], 10, false, false, false, (w : Int), 6, ' ', .defaultfloat⟩
        64 n)).out, none) = _
  rw [renderSigned_dec _ _ _ rfl rfl rfl]
  unfold emit
  rw [padField_right _ _ w rfl rfl]
  simp

lemma stringformat_width_minus_d (w : Nat) (n : Int) (h0 : 0 < w) (hb : w < 2 ^ 31) :
    stringformat ('%' :: '-' :: (natToBase false 10 w ++ ['d'])) [.sint 32 n]
      = (decRender n ++ List.replicate (w - (decRender n).length) ' ', none) := by
  have hcm : ('-' : Char) ≠ '%' := by decide
  have hps := parseSpec_width_minus_d w h0 hb
  have hcfg : configure initOS ⟨true, false, ' ', (w : Int), true, 0, false, 'd'⟩
      = .ok ⟨[], 10, false, false, true, (w : Int), 6, ' ', .defaultfloat⟩ := rfl
  unfold stringformat formatRun
  simp only [List.length_cons]
  rw [formatGo_spec _ _ _ _ _ _ _ _ _ hcm hps hcfg]
  rw [formatGo_args_nil]
  show ((emit ⟨[], 10, false, false, true, (w : Int), 6, ' ', .defaultfloat⟩
      (renderSigned ⟨[], 10, false, false, true, (w : Int), 6, ' ', .defaultfloat⟩
        64 n)).out, none) = _
  rw [renderSigned_dec _ _ _ rfl rfl rfl]
  unfold emit
  rw [padField_left _ _ w rfl rfl]
  simp

/-- C4: format percent-d of 123 gives 123; width 5 pads right-justified
with spaces; the minus flag left-justifies; zero pad character pads with
zeros; a specified width of 0 means no padding; and in general a
specified width w pads the rendered field to length w with the pad
character, on the left by default and on the right with the minus
flag. -/
theorem c4_width_padding :
    stringformat ['%', 'd'] [.sint 32 123] = (['1', '2', '3'], none) ∧
    stringformat ['%', '5', 'd'] [.sint 32 123] = ([' ', ' ', '1', '2', '3'], none) ∧
    stringformat ['%', '-', '5', 'd'] [.sint 32 123] = (['1', '2', '3', ' ', ' '], none) ∧
    stringformat ['%', '0', '5', 'd'] [.sint 32 123] = (['0', '0', '1', '2', '3'], none) ∧
    stringformat ['%', '0', '0', 'd'] [.sint 32 123] = (['1', '2', '3'], none) ∧
    (∀ (w : Nat) (n : Int), 0 < w → w < 2 ^ 31 →
      stringformat ('%' :: (natToBase false 10 w ++ ['d'])) [.sint 32 n]
        = (List.replicate (w - (decRender n).length) ' ' ++ decRender n, none)) ∧
    (∀ (w : Nat) (n : Int), 0 < w → w < 2 ^ 31 →
      stringformat ('%' :: '-' :: (natToBase false 10 w ++ ['d'])) [.sint 32 n]
        = (decRender n ++ List.replicate (w - (decRender n).length) ' ', none)) :=
  ⟨rfl, rfl, rfl, rfl, rfl,
    fun w n h0 hb => stringformat_width_d w n h0 hb,
    fun w n h0 hb => stringformat_width_minus_d w n h0 hb⟩

theorem c4_witness :
    (0 < 5 ∧ 5 < 2 ^ 31) ∧
      stringformat ('%' :: (natToBase false 10 5 ++ ['d'])) [.sint 32 123]
        = (List.replicate (5 - (decRender 123).length) ' ' ++ decRender 123, none) :=
  ⟨⟨by norm_num, by norm_num⟩,
    c4_width_padding.2.2.2.2.2.1 5 123 (by norm_num) (by norm_num)⟩

lemma specCount_cons_ne (c : Char) (t : List Char) (h : c ≠ '%') :
    specCount (c :: t) = specCount t := by
  cases t with
  | nil =>
    have he : specCount [c] = if c = '%' then 1 else 0 := rfl
    rw [he, if_neg h]
    rfl
  | cons c2 t2 =>
    have he : specCount (c :: c2 :: t2)
        = if c = '%' then (if c2 = '%' then specCount t2 else 1 + specCount (c2 :: t2))
          else specCount (c2 :: t2) := rfl
    rw [he, if_neg h]

lemma specCount_pct_ne (c2 : Char) (t2 : List Char) (h : c2 ≠ '%') :
    specCount ('%' :: c2 :: t2) = 1 + specCount (c2 :: t2) := by
  have he : specCount ('%' :: c2 :: t2)
      = if c2 = '%' then specCount t2 else 1 + specCount (c2 :: t2) := rfl
  rw [he, if_neg h]

lemma specCount_append_noPct (seg t : List Char) (h : '%' ∉ seg) :
    specCount (seg ++ t) = specCount t := by
  induction seg with
  | nil => rfl
  | cons c s ih =>
    have hc : c ≠ '%' := fun he => h (by simp [he])
    rw [List.cons_append, specCount_cons_ne _ _ hc]
    exact ih fun hm => h (by simp [hm])

lemma specCount_pct_seg (seg rest : List Char) (hne : seg ≠ []) (hnp : '%' ∉ seg) :
    specCount ('%' :: (seg ++ rest)) = 1 + specCount rest := by
  rcases seg with _ | ⟨d, s⟩
  · exact absurd rfl hne
  · have hd : d ≠ '%' := fun he => hnp (by simp [he])
    rw [List.cons_append, specCount_pct_ne _ _ hd, ← List.cons_append,
      specCount_append_noPct _ _ hnp]

lemma iSwallowFree_cons (c : Char) (t : List Char) (h : iSwallowFree (c :: t) = true) :
    iSwallowFree t = true := by
  cases t with
  | nil => rfl
  | cons c2 t2 =>
    cases t2 with
    | nil => rfl
    | cons c3 t3 =>
      have he : iSwallowFree (c :: c2 :: c3 :: t3)
          = if c = 'I' ∧ c2 = '%' ∧ (c3 = '6' ∨ c3 = '4') then false
            else iSwallowFree (c2 :: c3 :: t3) := rfl
      rw [he] at h
      by_cases hcond : c = 'I' ∧ c2 = '%' ∧ (c3 = '6' ∨ c3 = '4')
      · rw [if_pos hcond] at h
        simp at h
      · rw [if_neg hcond] at h
        exact h

lemma iSwallowFree_append (a b : List Char) (h : iSwallowFree (a ++ b) = true) :
    iSwallowFree b = true := by
  induction a with
  | nil => exact h
  | cons c s ih => exact ih (iSwallowFree_cons _ _ h)

lemma skipWs_decomp (l : List Char) : ∃ s, l = s ++ skipWs l ∧ '%' ∉ s := by
  induction l with
  | nil => exact ⟨[], rfl, by simp⟩
  | cons c t ih =>
    have he : skipWs (c :: t) = if isWsC c then skipWs t else c :: t := rfl
    by_cases h : isWsC c
    · obtain ⟨s, hs, hm⟩ := ih
      refine ⟨c :: s, ?_, ?_⟩
      · rw [he, if_pos h, List.cons_append, ← hs]
      · intro hmem
        rcases List.mem_cons.mp hmem with hc | hc
        · rw [← hc] at h
          revert h
          decide
        · exact hm hc
    · refine ⟨[], ?_, by simp⟩
      rw [he, if_neg h]
      rfl

lemma readDigits_decomp :
    ∀ (l : List Char) (acc : Nat), ∃ s, l = s ++ (readDigits l acc).2 ∧ '%' ∉ s := by
  intro l
  induction l with
  | nil => exact fun acc => ⟨[], rfl, by simp⟩
  | cons c t ih =>
    intro acc
    have he : readDigits (c :: t) acc
        = if isDigitC c then readDigits t (acc * 10 + (c.toNat - 48))
          else (acc, c :: t) := rfl
    by_cases h : isDigitC c
    · obtain ⟨s, hs, hm⟩ := ih (acc * 10 + (c.toNat - 48))
      refine ⟨c :: s, ?_, ?_⟩
      · rw [he, if_pos h, List.cons_append, ← hs]
      · intro hmem
        rcases List.mem_cons.mp hmem with hc | hc
        · exact absurd hc.symm (isDigitC_ne_of_code c h 37 (by omega) '%' rfl)
        · exact hm hc
    · refine ⟨[], ?_, by simp⟩
      rw [he, if_neg h]
      rfl

lemma strtolSign_decomp (l : List Char) (b : Bool) (r : List Char)
    (h : strtolSign l = (b, r)) : ∃ s, l = s ++ r ∧ '%' ∉ s := by
  cases l with
  | nil =>
    injection h with h1 h2
    exact ⟨[], by rw [← h2]; rfl, by simp⟩
  | cons c t =>
    have he : strtolSign (c :: t)
        = if c = '-' then (true, t)
          else if c = '+' then (false, t)
          else (false, c :: t) := rfl
    rw [he] at h
    by_cases h1 : c = '-'
    · rw [if_pos h1] at h
      injection h with hb hr
      subst hr
      exact ⟨[c], by simp, by subst h1; decide⟩
    · rw [if_neg h1] at h
      by_cases h2 : c = '+'
      · rw [if_pos h2] at h
        injection h with hb hr
        subst hr
        exact ⟨[c], by simp, by subst h2; decide⟩
      · rw [if_neg h2] at h
        injection h with hb hr
        subst hr
        exact ⟨[], by simp, by simp⟩

lemma strtolDec_decomp (l : List Char) (v : Int) (r : List Char) (b : Bool)
    (h : strtolDec l = (v, r, b)) : ∃ s, l = s ++ r ∧ '%' ∉ s := by
  unfold strtolDec at h
  rcases hsg : strtolSign (skipWs l) with ⟨neg, l2⟩
  rw [hsg] at h
  dsimp only at h
  rcases hrd : readDigits l2 0 with ⟨v2, l3⟩
  rw [hrd] at h
  dsimp only at h
  split at h
  · injection h with h1 h2
    injection h2 with h2 h3
    subst h2
    exact ⟨[], by simp, by simp⟩
  · injection h with h1 h2
    injection h2 with h2 h3
    subst h2
    obtain ⟨s1, hs1, hm1⟩ := skipWs_decomp l
    obtain ⟨s2, hs2, hm2⟩ := strtolSign_decomp (skipWs l) neg l2 hsg
    obtain ⟨s3, hs3, hm3⟩ := readDigits_decomp l2 0
    rw [hrd] at hs3
    refine ⟨s1 ++ (s2 ++ s3), ?_, ?_⟩
    · rw [hs1, hs2, hs3]
      simp [List.append_assoc]
    · intro hm
      simp at hm
      rcases hm with hm | hm | hm
      · exact hm1 hm
      · exact hm2 hm
      · exact hm3 hm

lemma parseFlagMinus_decomp (l : List Char) (b : Bool) (r : List Char)
    (h : parseFlagMinus l = (b, r)) : ∃ s, l = s ++ r ∧ '%' ∉ s := by
  cases l with
  | nil =>
    injection h with h1 h2
    exact ⟨[], by rw [← h2]; rfl, by simp⟩
  | cons c t =>
    have he : parseFlagMinus (c :: t)
        = if c = '-' then (true, t) else (false, c :: t) := rfl
    rw [he] at h
    by_cases h1 : c = '-'
    · rw [if_pos h1] at h
      injection h with hb hr
      subst hr
      exact ⟨[c], by simp, by subst h1; decide⟩
    · rw [if_neg h1] at h
      injection h with hb hr
      subst hr
      exact ⟨[], by simp, by simp⟩

lemma parseFlagSign_decomp (l : List Char) (b : Bool) (r : List Char)
    (h : parseFlagSign l = (b, r)) : ∃ s, l = s ++ r ∧ '%' ∉ s := by
  cases l with
  | nil =>
    injection h with h1 h2
    exact ⟨[], by rw [← h2]; rfl, by simp⟩
  | cons c t =>
    have he : parseFlagSign (c :: t)
        = if c = '+' then (true, t)
          else if c = ' ' then (false, t)
          else (false, c :: t) := rfl
    rw [he] at h
    by_cases h1 : c = '+'
    · rw [if_pos h1] at h
      injection h with hb hr
      subst hr
      exact ⟨[c], by simp, by subst h1; decide⟩
    · rw [if_neg h1] at h
      by_cases h2 : c = ' '
      · rw [if_pos h2] at h
        injection h with hb hr
        subst hr
        exact ⟨[c], by simp, by subst h2; decide⟩
      · rw [if_neg h2] at h
        injection h with hb hr
        subst hr
        exact ⟨[], by simp, by simp⟩

lemma parsePad_decomp (l : List Char) (pc : Char) (r : List Char)
    (h : parsePad l = (pc, r)) : ∃ s, l = s ++ r ∧ '%' ∉ s := by
  cases l with
  | nil =>
    injection h with h1 h2
    exact ⟨[], by rw [← h2]; rfl, by simp⟩
  | cons c t =>
    have he : parsePad (c :: t)
        = if c = '0' then ('0', t)
          else if c = ',' then (',', t)
          else (' ', c :: t) := rfl
    rw [he] at h
    by_cases h1 : c = '0'
    · rw [if_pos h1] at h
      injection h with hb hr
      subst hr
      exact ⟨[c], by simp, by subst h1; decide⟩
    · rw [if_neg h1] at h
      by_cases h2 : c = ','
      · rw [if_pos h2] at h
        injection h with hb hr
        subst hr
        exact ⟨[c], by simp, by subst h2; decide⟩
      · rw [if_neg h2] at h
        injection h with hb hr
        subst hr
        exact ⟨[], by simp, by simp⟩

lemma parsePrec_decomp (l : List Char) (v : Int) (r : List Char) (b : Bool)
    (h : parsePrec l = (v, r, b)) : ∃ s, l = s ++ r ∧ '%' ∉ s := by
  cases l with
  | nil =>
    injection h with h1 h2
    injection h2 with h2 h3
    exact ⟨[], by rw [← h2]; rfl, by simp⟩
  | cons c t =>
    have he : parsePrec (c :: t)
        = if c = '.' then strtolDec t else (0, c :: t, false) := rfl
    rw [he] at h
    by_cases h1 : c = '.'
    · rw [if_pos h1] at h
      obtain ⟨s, hs, hm⟩ := strtolDec_decomp t v r b h
      refine ⟨c :: s, by rw [List.cons_append, ← hs], ?_⟩
      intro hmem
      rcases List.mem_cons.mp hmem with hc | hc
      · rw [← hc] at h1
        simp at h1
      · exact hm hc
    · rw [if_neg h1] at h
      injection h with hv h2
      injection h2 with h2 h3
      subst h2
      exact ⟨[], by simp, by simp⟩

lemma skipMods_decomp :
    ∀ (l r : List Char), skipMods l = some r → ∃ s, l = s ++ r ∧ '%' ∉ s := by
  intro l
  induction l with
  | nil =>
    intro r h
    simp [skipMods] at h
  | cons c t ih =>
    intro r h
    have he : skipMods (c :: t)
        = if isSizeChar c then skipMods t else some (c :: t) := rfl
    rw [he] at h
    by_cases h1 : isSizeChar c
    · rw [if_pos h1] at h
      obtain ⟨s, hs, hm⟩ := ih r h
      refine ⟨c :: s, by rw [List.cons_append, ← hs], ?_⟩
      intro hmem
      rcases List.mem_cons.mp hmem with hc | hc
      · rw [← hc] at h1
        rcases h1 with h1 | h1 | h1 | h1 | h1 | h1 | h1 <;> simp at h1
      · exact hm hc
    · rw [if_neg h1] at h
      injection h with h2
      subst h2
      exact ⟨[], by simp, by simp⟩

lemma iSkip_decomp (l r : List Char) (hfree : iSwallowFree l = true)
    (h : iSkip l = some r) : ∃ s, l = s ++ r ∧ '%' ∉ s := by
  cases l with
  | nil =>
    injection h with h1
    subst h1
    exact ⟨[], by simp, by simp⟩
  | cons c t =>
    have he : iSkip (c :: t) = if c = 'I' then iSkipAfterI t else some (c :: t) := rfl
    rw [he] at h
    by_cases hcI : c = 'I'
    · rw [if_pos hcI] at h
      subst hcI
      cases t with
      | nil => simp [iSkipAfterI] at h
      | cons c1 t1 =>
        cases t1 with
        | nil =>
          have he1 : iSkipAfterI [c1] = some [c1] := rfl
          rw [he1] at h
          injection h with h1
          subst h1
          exact ⟨['I'], by simp, by decide⟩
        | cons c2 t2 =>
          have he2 : iSkipAfterI (c1 :: c2 :: t2)
              = if c2 = '6' ∨ c2 = '4' then some t2 else some (c1 :: c2 :: t2) := rfl
          rw [he2] at h
          by_cases h64 : c2 = '6' ∨ c2 = '4'
          · rw [if_pos h64] at h
            injection h with h1
            subst h1
            have hc1 : c1 ≠ '%' := by
              intro hc
              subst hc
              have hfe : iSwallowFree ('I' :: '%' :: c2 :: t2)
                  = if ('I' : Char) = 'I' ∧ ('%' : Char) = '%' ∧ (c2 = '6' ∨ c2 = '4')
                    then false else iSwallowFree ('%' :: c2 :: t2) := rfl
              rw [hfe, if_pos ⟨rfl, rfl, h64⟩] at hfree
              simp at hfree
            refine ⟨['I', c1, c2], by simp, ?_⟩
            intro hm
            simp at hm
            rcases hm with hm | hm
            · exact hc1 hm.symm
            · rcases h64 with h6 | h6 <;> subst h6 <;> simp at hm
          · rw [if_neg h64] at h
            injection h with h1
            subst h1
            exact ⟨['I'], by simp, by decide⟩
    · rw [if_neg hcI] at h
      injection h with h1
      subst h1
      exact ⟨[], by simp, by simp⟩

lemma applyType_ok_ne (st st0 : OS) (tc : Char) (h : applyType st tc = .ok st0) :
    tc ≠ '%' ∧ tc ≠ '\x00' := by
  constructor <;> rintro rfl <;> (unfold applyType at h; simp at h)

lemma configure_ok_tchar (st st1 : OS) (sp : Spec) (h : configure st sp = .ok st1) :
    sp.tchar ≠ '%' ∧ sp.tchar ≠ '\x00' := by
  unfold configure at h
  rcases happ : applyType st sp.tchar with e | st0
  · rw [happ] at h
    simp at h
  · exact applyType_ok_ne st st0 sp.tchar happ

lemma parseSpec_decomp (l : List Char) (sp : Spec) (r : List Char)
    (hfree : iSwallowFree l = true) (hp : parseSpec l = .ok (sp, r))
    (htc0 : sp.tchar ≠ '\x00') (htcp : sp.tchar ≠ '%') :
    ∃ s, l = s ++ r ∧ '%' ∉ s ∧ s ≠ [] := by
  unfold parseSpec at hp
  rcases h1 : parseFlagMinus l with ⟨la, l1⟩
  rw [h1] at hp
  dsimp only at hp
  rcases h2 : parseFlagSign l1 with ⟨fs, l2⟩
  rw [h2] at hp
  dsimp only at hp
  rcases h3 : parsePad l2 with ⟨pc, l3⟩
  rw [h3] at hp
  dsimp only at hp
  rcases h4 : strtolDec l3 with ⟨wv, l4, hwb⟩
  rw [h4] at hp
  dsimp only at hp
  rcases h5 : parsePrec l4 with ⟨pv, l5, hpb⟩
  rw [h5] at hp
  dsimp only at hp
  rcases h6 : skipMods l5 with _ | l6
  · rw [h6] at hp
    simp at hp
  rw [h6] at hp
  dsimp only at hp
  rcases h7 : iSkip l6 with _ | l7
  · rw [h7] at hp
    simp at hp
  rw [h7] at hp
  dsimp only at hp
  rcases h8 : readType l7 with ⟨tc, l8⟩
  rw [h8] at hp
  dsimp only at hp
  injection hp with hp0
  injection hp0 with hp1 hp2
  obtain ⟨s1, hs1, hm1⟩ := parseFlagMinus_decomp l la l1 h1
  obtain ⟨s2, hs2, hm2⟩ := parseFlagSign_decomp l1 fs l2 h2
  obtain ⟨s3, hs3, hm3⟩ := parsePad_decomp l2 pc l3 h3
  obtain ⟨s4, hs4, hm4⟩ := strtolDec_decomp l3 wv l4 hwb h4
  obtain ⟨s5, hs5, hm5⟩ := parsePrec_decomp l4 pv l5 hpb h5
  obtain ⟨s6, hs6, hm6⟩ := skipMods_decomp l5 l6 h6
  have hfree6 : iSwallowFree l6 = true := by
    apply iSwallowFree_append (s1 ++ s2 ++ s3 ++ s4 ++ s5 ++ s6) l6
    have hleq : l = (s1 ++ s2 ++ s3 ++ s4 ++ s5 ++ s6) ++ l6 := by
      rw [hs1, hs2, hs3, hs4, hs5, hs6]
      simp [List.append_assoc]
    rw [← hleq]
    exact hfree
  obtain ⟨s7, hs7, hm7⟩ := iSkip_decomp l6 l7 hfree6 h7
  have htceq : sp.tchar = tc := by rw [← hp1]
  have htcne : tc ≠ '\x00' := by
    rw [← htceq]
    exact htc0
  have hl7 : l7 = tc :: l8 := by
    cases l7 with
    | nil =>
      unfold readType at h8
      injection h8 with hh1 hh2
      exact absurd hh1.symm htcne
    | cons a b =>
      unfold readType at h8
      injection h8 with hh1 hh2
      rw [hh1, hh2]
  have htcp2 : tc ≠ '%' := by
    rw [← htceq]
    exact htcp
  refine ⟨s1 ++ s2 ++ s3 ++ s4 ++ s5 ++ s6 ++ s7 ++ [tc], ?_, ?_, by simp⟩
  · rw [hs1, hs2, hs3, hs4, hs5, hs6, hs7, hl7, ← hp2]
    simp [List.append_assoc]
  · intro hm
    simp at hm
    rcases hm with hm | hm | hm | hm | hm | hm | hm | hm
    · exact hm1 hm
    · exact hm2 hm
    · exact hm3 hm
    · exact hm4 hm
    · exact hm5 hm
    · exact hm6 hm
    · exact hm7 hm
    · exact htcp2 hm.symm



lemma format0_lit (st : OS) (c : Char) (t : List Char) (h : c ≠ '%') :
    format0 st (c :: t) = format0 (emit st [c]) t := by
  cases t with
  | nil =>
    have he : format0 st [c]
        = if c = '%' then (st, some Err.notEnough) else format0 (emit st [c]) [] := rfl
    rw [he, if_neg h]
  | cons c2 t2 =>
    have he : format0 st (c :: c2 :: t2)
        = if c = '%' then
            (if c2 = '%' then format0 (emit st ['%']) t2 else (st, some Err.notEnough))
          else format0 (emit st [c]) (c2 :: t2) := rfl
    rw [he, if_neg h]

lemma format0_pct_pct (st : OS) (t2 : List Char) :
    format0 st ('%' :: '%' :: t2) = format0 (emit st ['%']) t2 := rfl

lemma format0_pct_ne (st : OS) (c2 : Char) (t2 : List Char) (h : c2 ≠ '%') :
    format0 st ('%' :: c2 :: t2) = (st, some .notEnough) := by
  simp [format0, h]

lemma format0_pct_nil (st : OS) : format0 st ['%'] = (st, some .notEnough) := rfl

lemma format0_success_count :
    ∀ (N : Nat) (fmt : List Char) (st : OS) (res : OS × Option Err),
      fmt.length ≤ N → format0 st fmt = res → res.2 = none → specCount fmt = 0 := by
  intro N
  induction N with
  | zero =>
    intro fmt st res hlen h0 hnone
    have hnil : fmt = [] := List.eq_nil_of_length_eq_zero (by omega)
    subst hnil
    rfl
  | succ k ih =>
    intro fmt st res hlen h0 hnone
    cases fmt with
    | nil => rfl
    | cons c t =>
      by_cases hc : c = '%'
      · subst hc
        cases t with
        | nil =>
          rw [format0_pct_nil] at h0
          rw [← h0] at hnone
          simp at hnone
        | cons c2 t2 =>
          by_cases h2 : c2 = '%'
          · subst h2
            rw [format0_pct_pct] at h0
            have hrec := ih t2 (emit st ['%']) res (by simp at hlen ⊢; omega) h0 hnone
            have hsc : specCount ('%' :: '%' :: t2) = specCount t2 := rfl
            rw [hsc]
            exact hrec
          · rw [format0_pct_ne _ _ _ h2] at h0
            rw [← h0] at hnone
            simp at hnone
      · rw [format0_lit _ _ _ hc] at h0
        have hrec := ih t (emit st [c]) res (by simp at hlen ⊢; omega) h0 hnone
        rw [specCount_cons_ne _ _ hc]
        exact hrec

lemma format0_notEnough :
    ∀ (N : Nat) (fmt : List Char) (st : OS), fmt.length ≤ N → 0 < specCount fmt →
      (format0 st fmt).2 = some .notEnough := by
  intro N
  induction N with
  | zero =>
    intro fmt st hlen hcount
    have hnil : fmt = [] := List.eq_nil_of_length_eq_zero (by omega)
    subst hnil
    simp [specCount] at hcount
  | succ k ih =>
    intro fmt st hlen hcount
    cases fmt with
    | nil => simp [specCount] at hcount
    | cons c t =>
      by_cases hc : c = '%'
      · subst hc
        cases t with
        | nil => rw [format0_pct_nil]
        | cons c2 t2 =>
          by_cases h2 : c2 = '%'
          · subst h2
            rw [format0_pct_pct]
            apply ih t2 (emit st ['%']) (by simp at hlen ⊢; omega)
            have hsc : specCount ('%' :: '%' :: t2) = specCount t2 := rfl
            rw [hsc] at hcount
            exact hcount
          · rw [format0_pct_ne _ _ _ h2]
      · rw [format0_lit _ _ _ hc]
        apply ih t (emit st [c]) (by simp at hlen ⊢; omega)
        rw [specCount_cons_ne _ _ hc] at hcount
        exact hcount

lemma formatGo_tooMany :
    ∀ (fuel : Nat) (fmt : List Char) (st : OS) (v : Arg) (vs : List Arg),
      fmt.length < fuel → specCount fmt = 0 →
      (formatGo fuel st fmt (v :: vs)).2 = some .tooMany := by
  intro fuel
  induction fuel with
  | zero =>
    intro fmt st v vs hlen hcount
    omega
  | succ f ih =>
    intro fmt st v vs hlen hcount
    cases fmt with
    | nil => rw [formatGo_fmt_nil]
    | cons c t =>
      by_cases hc : c = '%'
      · subst hc
        cases t with
        | nil => simp [specCount] at hcount
        | cons c2 t2 =>
          by_cases h2 : c2 = '%'
          · subst h2
            rw [formatGo_pct]
            apply ih t2 (emit st ['%']) v vs (by simp at hlen ⊢; omega)
            have hsc : specCount ('%' :: '%' :: t2) = specCount t2 := rfl
            rw [hsc] at hcount
            exact hcount
          · rw [specCount_pct_ne _ _ h2] at hcount
            omega
      · rw [formatGo_lit _ _ _ _ _ _ hc]
        apply ih t (emit st [c]) v vs (by simp at hlen ⊢; omega)
        rw [specCount_cons_ne _ _ hc] at hcount
        exact hcount

lemma formatGo_success_count :
    ∀ (fuel : Nat) (fmt : List Char) (st : OS) (args : List Arg) (res : OS × Option Err),
      iSwallowFree fmt = true → formatGo fuel st fmt args = res → res.2 = none →
      specCount fmt = args.length := by
  intro fuel
  induction fuel with
  | zero =>
    intro fmt st args res hfree h0 hnone
    cases args with
    | nil =>
      rw [formatGo_args_nil] at h0
      exact format0_success_count fmt.length fmt st res (le_refl _) h0 hnone
    | cons v vs =>
      cases fmt with
      | nil =>
        rw [formatGo_fmt_nil] at h0
        rw [← h0] at hnone
        simp at hnone
      | cons c t =>
        have hz : formatGo 0 st (c :: t) (v :: vs) = (st, some .noFuel) := rfl
        rw [hz] at h0
        rw [← h0] at hnone
        simp at hnone
  | succ f ih =>
    intro fmt st args res hfree h0 hnone
    cases args with
    | nil =>
      rw [formatGo_args_nil] at h0
      exact format0_success_count fmt.length fmt st res (le_refl _) h0 hnone
    | cons v vs =>
      cases fmt with
      | nil =>
        rw [formatGo_fmt_nil] at h0
        rw [← h0] at hnone
        simp at hnone
      | cons c t =>
        by_cases hc : c = '%'
        · subst hc
          cases t with
          | nil =>
            rw [formatGo_pct_end] at h0
            rw [← h0] at hnone
            simp at hnone
          | cons c2 t2 =>
            by_cases h2 : c2 = '%'
            · subst h2
              rw [formatGo_pct] at h0
              have hrec := ih t2 (emit st ['%']) (v :: vs) res
                (iSwallowFree_cons _ _ (iSwallowFree_cons _ _ hfree)) h0 hnone
              have hsc : specCount ('%' :: '%' :: t2) = specCount t2 := rfl
              rw [hsc, hrec]
            · rcases hps : parseSpec (c2 :: t2) with e | ⟨sp, rest⟩
              · rw [formatGo_parse_err _ _ _ _ _ _ _ h2 hps] at h0
                rw [← h0] at hnone
                simp at hnone
              · rcases hcf : configure st sp with e | st1
                · rw [formatGo_cfg_err _ _ _ _ _ _ _ _ _ h2 hps hcf] at h0
                  rw [← h0] at hnone
                  simp at hnone
                · rw [formatGo_spec _ _ _ _ _ _ _ _ _ h2 hps hcf] at h0
                  have hfree2 : iSwallowFree (c2 :: t2) = true :=
                    iSwallowFree_cons _ _ hfree
                  have htc := configure_ok_tchar st st1 sp hcf
                  obtain ⟨seg, hseg, hnp, hsne⟩ :=
                    parseSpec_decomp (c2 :: t2) sp rest hfree2 hps htc.2 htc.1
                  have hfree3 : iSwallowFree rest = true := by
                    apply iSwallowFree_append seg
                    rw [← hseg]
                    exact hfree2
                  have hrec := ih rest (dispatch st1 sp.tchar v) vs res hfree3 h0 hnone
                  rw [hseg, specCount_pct_seg seg rest hsne hnp, hrec]
                  simp only [List.length_cons]
                  omega
        · rw [formatGo_lit _ _ _ _ _ _ hc] at h0
          have hrec := ih t (emit st [c]) (v :: vs) res
            (iSwallowFree_cons _ _ hfree) h0 hnone
          rw [specCount_cons_ne _ _ hc]
          exact hrec



/-- C1 amended: a successful format call implies the specifier count
equals the argument count (for format strings free of the
I-percent-swallow anomaly, where the Microsoft-I lookahead can skip over
a percent); with the arguments exhausted, any remaining real specifier
raises NotEnoughArguments; with no real specifier and arguments
remaining the call raises TooManyArguments.  The converse direction of
the claim's iff is false: equal counts do not guarantee success (see the
counterexample). -/
theorem c1_amended :
    (∀ (fmt : List Char) (st : OS) (args : List Arg) (res : OS × Option Err),
        iSwallowFree fmt = true → formatRun st fmt args = res → res.2 = none →
        specCount fmt = args.length) ∧
    (∀ (fmt : List Char) (st : OS), 0 < specCount fmt →
        (formatRun st fmt []).2 = some .notEnough) ∧
    (∀ (fmt : List Char) (st : OS) (v : Arg) (vs : List Arg), specCount fmt = 0 →
        (formatRun st fmt (v :: vs)).2 = some .tooMany) := by
  refine ⟨?_, ?_, ?_⟩
  · intro fmt st args res hfree h0 hnone
    exact formatGo_success_count (fmt.length + 1) fmt st args res hfree h0 hnone
  · intro fmt st hcount
    unfold formatRun
    rw [formatGo_args_nil]
    exact format0_notEnough fmt.length fmt st (le_refl _) hcount
  · intro fmt st v vs hcount
    exact formatGo_tooMany (fmt.length + 1) fmt st v vs (by omega) hcount

theorem c1_witness :
    (iSwallowFree ['%', 'd'] = true ∧ 0 < specCount ['%', 'd'] ∧ specCount ['a'] = 0) ∧
      (formatRun initOS ['%', 'd'] []).2 = some .notEnough ∧
      (formatRun initOS ['a'] [.sint 32 1]).2 = some .tooMany :=
  ⟨⟨by decide, by decide, by decide⟩,
    c1_amended.2.1 ['%', 'd'] initOS (by decide),
    c1_amended.2.2 ['a'] initOS (.sint 32 1) [] (by decide)⟩

end Fmt
